import Mathlib

/-!
Verification of the Pack Registry core of `resourcepack-server`
(Go sources: `server/server.go`, package `pack`), shallowly embedded in Lean.

Modelling conventions:
* byte strings are `String`s, and file bytes are obtained through an explicit
  UTF-8 encoder (`strBytes`);
* unix timestamps and byte sizes are `Nat` (the program only ever observes
  non-negative values of `time.Time.Unix` and `FileInfo.Size`);
* JSON numbers are modelled as integers (`Int`), which covers every value the
  program compares or stores (`pack_format`);
* fallible filesystem observations (`os.ReadDir`, `os.Stat`, `filepath.Walk`,
  `os.ReadFile`, reading a zip entry) are `Option`-valued fields of an
  environment record, `none` standing for the error case;
* the result of `encoding/json.Unmarshal` into `map[string]interface{}` is
  modelled as `Option (List (String × JValue))`, `none` standing for a decode
  error or a non-object document.
-/

/-! ## MD5 (`crypto/md5`), operating on byte lists -/

/-- Left-rotation of a 32-bit word represented as a `Nat` below `2 ^ 32`. -/
def rotl32 (x c : Nat) : Nat :=
  ((x <<< c) ||| (x >>> (32 - c))) % 4294967296

/-- The 64 per-round additive constants of MD5 (`floor (abs (sin (i+1)) * 2^32)`). -/
def md5K : List Nat :=
  [0xd76aa478, 0xe8c7b756, 0x242070db, 0xc1bdceee, 0xf57c0faf, 0x4787c62a,
   0xa8304613, 0xfd469501, 0x698098d8, 0x8b44f7af, 0xffff5bb1, 0x895cd7be,
   0x6b901122, 0xfd987193, 0xa679438e, 0x49b40821, 0xf61e2562, 0xc040b340,
   0x265e5a51, 0xe9b6c7aa, 0xd62f105d, 0x02441453, 0xd8a1e681, 0xe7d3fbc8,
   0x21e1cde6, 0xc33707d6, 0xf4d50d87, 0x455a14ed, 0xa9e3e905, 0xfcefa3f8,
   0x676f02d9, 0x8d2a4c8a, 0xfffa3942, 0x8771f681, 0x6d9d6122, 0xfde5380c,
   0xa4beea44, 0x4bdecfa9, 0xf6bb4b60, 0xbebfbc70, 0x289b7ec6, 0xeaa127fa,
   0xd4ef3085, 0x04881d05, 0xd9d4d039, 0xe6db99e5, 0x1fa27cf8, 0xc4ac5665,
   0xf4292244, 0x432aff97, 0xab9423a7, 0xfc93a039, 0x655b59c3, 0x8f0ccc92,
   0xffeff47d, 0x85845dd1, 0x6fa87e4f, 0xfe2ce6e0, 0xa3014314, 0x4e0811a1,
   0xf7537e82, 0xbd3af235, 0x2ad7d2bb, 0xeb86d391]

/-- The 64 per-round left-rotation amounts of MD5. -/
def md5S : List Nat :=
  [7, 12, 17, 22, 7, 12, 17, 22, 7, 12, 17, 22, 7, 12, 17, 22,
   5, 9, 14, 20, 5, 9, 14, 20, 5, 9, 14, 20, 5, 9, 14, 20,
   4, 11, 16, 23, 4, 11, 16, 23, 4, 11, 16, 23, 4, 11, 16, 23,
   6, 10, 15, 21, 6, 10, 15, 21, 6, 10, 15, 21, 6, 10, 15, 21]

/-- One MD5 round applied to the running state `(a, b, c, d)`,
given the sixteen 32-bit message words `M` of the current chunk. -/
def md5Round (M : List Nat) (st : Nat × Nat × Nat × Nat) (i : Nat) :
    Nat × Nat × Nat × Nat :=
  let a := st.1
  let b := st.2.1
  let c := st.2.2.1
  let d := st.2.2.2
  let fg : Nat × Nat :=
    if i < 16 then ((b &&& c) ||| ((b ^^^ 0xffffffff) &&& d), i)
    else if i < 32 then ((d &&& b) ||| ((d ^^^ 0xffffffff) &&& c), (5 * i + 1) % 16)
    else if i < 48 then (b ^^^ c ^^^ d, (3 * i + 5) % 16)
    else (c ^^^ (b ||| (d ^^^ 0xffffffff)), (7 * i) % 16)
  let f := (fg.1 + a + md5K.getD i 0 + M.getD fg.2 0) % 4294967296
  (d, (b + rotl32 f (md5S.getD i 0)) % 4294967296, b, c)

/-- Little-endian decoding of up to four bytes into one 32-bit word. -/
def leWord (bs : List Nat) : Nat :=
  match bs with
  | [] => 0
  | b :: rest => b + 256 * leWord rest

/-- The sixteen little-endian 32-bit words of one 64-byte chunk. -/
def chunkWords (chunk : List Nat) : List Nat :=
  (List.range 16).map (fun j => leWord ((chunk.drop (4 * j)).take 4))

/-- Process one 64-byte chunk into the MD5 state. -/
def md5Chunk (st : Nat × Nat × Nat × Nat) (chunk : List Nat) :
    Nat × Nat × Nat × Nat :=
  let M := chunkWords chunk
  let r := (List.range 64).foldl (md5Round M) st
  ((st.1 + r.1) % 4294967296, (st.2.1 + r.2.1) % 4294967296,
   (st.2.2.1 + r.2.2.1) % 4294967296, (st.2.2.2 + r.2.2.2) % 4294967296)

/-- Split a byte list into `k` consecutive 64-byte chunks. -/
def splitChunks : Nat → List Nat → List (List Nat)
  | 0, _ => []
  | k + 1, l => l.take 64 :: splitChunks k (l.drop 64)

/-- Little-endian encoding of a number as `k` bytes. -/
def leBytes (k n : Nat) : List Nat :=
  (List.range k).map (fun j => (n >>> (8 * j)) % 256)

/-- MD5 padding: a `0x80` byte, zeros up to 56 mod 64, then the bit length
as eight little-endian bytes. -/
def md5Pad (msg : List Nat) : List Nat :=
  let len := msg.length
  let z := (120 - ((len + 1) % 64)) % 64
  msg ++ [0x80] ++ List.replicate z 0 ++ leBytes 8 ((8 * len) % 18446744073709551616)

/-- Lowercase hexadecimal digit. -/
def hexChar (n : Nat) : Char :=
  if n < 10 then Char.ofNat (48 + n) else Char.ofNat (87 + n)

/-- Two lowercase hex digits of a byte. -/
def byteHex (b : Nat) : List Char :=
  [hexChar (b / 16), hexChar (b % 16)]

/-- The full MD5 digest of a byte list, as a lowercase hex string
(modelling `fmt.Sprintf("%x", md5.Sum(...))`). -/
def md5hexBytes (msg : List Nat) : String :=
  let padded := md5Pad msg
  let chunks := splitChunks (padded.length / 64) padded
  let st := chunks.foldl md5Chunk (0x67452301, 0xefcdab89, 0x98badcfe, 0x10325476)
  let out := leBytes 4 st.1 ++ leBytes 4 st.2.1 ++ leBytes 4 st.2.2.1 ++ leBytes 4 st.2.2.2
  String.mk (out.foldr (fun b acc => byteHex b ++ acc) [])

/-- UTF-8 encoding of one character as bytes. -/
def utf8Bytes (c : Char) : List Nat :=
  let n := c.toNat
  if n < 0x80 then [n]
  else if n < 0x800 then
    [0xC0 ||| (n >>> 6), 0x80 ||| (n &&& 0x3F)]
  else if n < 0x10000 then
    [0xE0 ||| (n >>> 12), 0x80 ||| ((n >>> 6) &&& 0x3F), 0x80 ||| (n &&& 0x3F)]
  else
    [0xF0 ||| (n >>> 18), 0x80 ||| ((n >>> 12) &&& 0x3F),
     0x80 ||| ((n >>> 6) &&& 0x3F), 0x80 ||| (n &&& 0x3F)]

/-- The UTF-8 bytes of a string (Go strings are UTF-8 byte strings). -/
def strBytes (s : String) : List Nat :=
  (s.data.map utf8Bytes).flatten

/-- MD5 hex digest of a string's bytes. -/
def md5hex (s : String) : String :=
  md5hexBytes (strBytes s)

/-! ## String helpers modelling `strconv`/`strings`/`path/filepath` -/

/-- Decimal digit characters, as printed by `fmt.Sprintf("%d", _)`. -/
def natDigitsCore : Nat → Nat → List Char → List Char
  | 0, _, acc => acc
  | fuel + 1, n, acc =>
    if n < 10 then Nat.digitChar n :: acc
    else natDigitsCore fuel (n / 10) (Nat.digitChar (n % 10) :: acc)

/-- Decimal rendering of a natural number, modelling `fmt.Sprintf("%d", _)`
for the non-negative values the program prints. -/
def natRepr (n : Nat) : String :=
  String.mk (natDigitsCore (n + 1) n [])

/-- Go `strings.HasSuffix`, on the underlying character lists. -/
def strEndsWith (s suffix : String) : Bool :=
  suffix.data.isSuffixOf s.data

/-- Go `strings.TrimSuffix`. -/
def trimSuffix (s suffix : String) : String :=
  if strEndsWith s suffix then
    String.mk (s.data.take (s.data.length - suffix.data.length))
  else s

/-- Go `filepath.Base` (for the slash-separated paths the program builds):
strip trailing slashes, then keep the last component. -/
def filepathBase (p : String) : String :=
  if p = "" then "."
  else
    let stripped := (p.data.reverse.dropWhile (· = '/')).reverse
    if stripped = [] then "/"
    else String.mk ((stripped.reverse.takeWhile (· ≠ '/')).reverse)

/-- Go `filepath.Join dir name` for a clean directory and a bare entry name. -/
def filepathJoin (dir name : String) : String :=
  dir ++ "/" ++ name

/-! ## JSON model (`encoding/json.Unmarshal` into `map[string]interface{}`)

A decoded JSON value; numbers are modelled as integers (every number the
program stores or compares is an integer `pack_format`). -/

inductive JValue where
  | jnull
  | jbool (b : Bool)
  | jnum (n : Int)
  | jstr (s : String)
  | jarr (xs : List JValue)
  | jobj (fields : List (String × JValue))
deriving Repr

/-- The result of `json.Unmarshal([]byte(content), &data)` for
`data : map[string]interface{}`: `none` is a decode failure (or a non-object
document), `some fields` the decoded top-level object. -/
abbrev JDoc := Option (List (String × JValue))

/-- Field access on a decoded object (`data["pack"]`); Go's decoder produces
maps with unique keys, so first-match lookup is the map read. -/
def jField? (fields : List (String × JValue)) (k : String) : Option JValue :=
  match fields with
  | [] => none
  | (k', v) :: rest => if k' = k then some v else jField? rest k

/-- Whether a looked-up value passes Go's `.(string)` type assertion. -/
def isStrVal : Option JValue → Bool
  | some (JValue.jstr _) => true
  | _ => false

/-- Whether a looked-up value passes Go's `.(float64)` type assertion
(JSON numbers decode as numbers). -/
def isNumVal : Option JValue → Bool
  | some (JValue.jnum _) => true
  | _ => false

/-! ## Data model (`pack.ResourcePack`, `pack.PackInfo`) -/

/-- `pack.PackInfo`. -/
structure PackInfo where
  description : String
  packFormat : Int
deriving DecidableEq, Repr

/-- `pack.ResourcePack`. -/
structure ResourcePack where
  name : String
  path : String
  description : String
  packFormat : Int
  size : Nat
  hash : String
  lastModified : Nat
  isDirectory : Bool
deriving DecidableEq, Repr

/-- `parsePackMcmeta`: decode the manifest, require an object field `pack`,
default `description` to `""` when absent or not a string, and `pack_format`
to `22` when absent or not a number. -/
def parsePackMcmeta (doc : JDoc) : Option PackInfo :=
  match doc with
  | none => none
  | some data =>
    match jField? data "pack" with
    | some (JValue.jobj packObj) =>
      let description :=
        match jField? packObj "description" with
        | some (JValue.jstr s) => s
        | _ => ""
      let packFormat : Int :=
        match jField? packObj "pack_format" with
        | some (JValue.jnum n) => n
        | _ => 22
      some { description := description, packFormat := packFormat }
    | _ => none

/-! ## Filesystem observations -/

/-- One regular file yielded by `filepath.Walk`, with the metadata the
program reads and the contents it does not. -/
structure FileRec where
  relPath : String
  mtimeUnix : Nat
  sizeBytes : Nat
  content : String
deriving DecidableEq, Repr

/-- What the program can observe about a directory-pack candidate. -/
structure DirTree where
  /-- `os.Stat(dir/pack.mcmeta)` succeeds (`isResourcePackDirectory`). -/
  hasMcmeta : Bool
  /-- `os.ReadFile(dir/pack.mcmeta)`: `none` is a read error, otherwise the
  decoded JSON document of the contents. -/
  mcmetaRead : Option JDoc
  /-- `filepath.Walk(dir)`: `none` is a walk error, otherwise the regular
  files in walk order. -/
  walk : Option (List FileRec)
  /-- `os.Stat(dir)`: `none` is a stat error, otherwise the mtime. -/
  statMtime : Option Nat
deriving Repr

/-- One entry of a zip archive's central directory, with the decoded JSON
document of its contents (`readOk = false` models an entry read error). -/
structure ZipEntry where
  name : String
  readOk : Bool
  doc : JDoc
deriving Repr

/-- What the program can observe about a zip-pack candidate. -/
structure ZipFile where
  /-- `os.Stat(path)` succeeds. -/
  statOk : Bool
  statSize : Nat
  statMtime : Nat
  /-- `zip.OpenReader(path)` succeeds. -/
  openOk : Bool
  entries : List ZipEntry
  /-- `os.Open` + read of the raw archive bytes (`calculateFileHash`):
  `none` is an I/O error, otherwise the bytes. -/
  fileBytes : Option String
deriving Repr

/-! ## Fingerprinter (`calculateFileHash`, `calculateDirectoryHash`,
`calculateDirectorySize`) -/

/-- The `"%s:%d:%d"` metadata line hashed for one file:
relative path, mtime unix seconds, size in bytes. -/
def metaLine (t : String × Nat × Nat) : String :=
  t.1 ++ ":" ++ natRepr t.2.1 ++ ":" ++ natRepr t.2.2

/-- The metadata tuple of a walked file (contents deliberately dropped). -/
def fileMeta (f : FileRec) : String × Nat × Nat :=
  (f.relPath, f.mtimeUnix, f.sizeBytes)

/-- `calculateDirectoryHash`: collect one metadata line per regular file,
`sort.Strings` them, join with newlines, MD5 the result. A walk error
(`none`) aborts with no partial fingerprint. -/
def calculateDirectoryHash (walk : Option (List FileRec)) : Option String :=
  match walk with
  | none => none
  | some files =>
    let fileInfos := files.map (fun f => metaLine (fileMeta f))
    some (md5hex (String.intercalate "\n" fileInfos.mergeSort))

/-- `calculateDirectorySize`: sum of regular-file sizes; a walk error aborts. -/
def calculateDirectorySize (walk : Option (List FileRec)) : Option Nat :=
  match walk with
  | none => none
  | some files => some (files.foldl (fun acc f => acc + f.sizeBytes) 0)

/-- `calculateFileHash`: MD5 of the file's bytes; an open/read error aborts. -/
def calculateFileHash (fileBytes : Option String) : Option String :=
  match fileBytes with
  | none => none
  | some bytes => some (md5hex bytes)


/-! ## PackLoader (`isResourcePackDirectory`, `loadDirectoryPack`,
`loadZipPack`) -/

/-- `isResourcePackDirectory`: the directory qualifies iff
`os.Stat(dir/pack.mcmeta)` succeeds. -/
def isResourcePackDirectory (t : DirTree) : Bool :=
  t.hasMcmeta

/-- The synthesized default description. -/
def defaultDescription (name : String) : String :=
  "Resource Pack: " ++ name

/-- `loadDirectoryPack`: derive the name from the directory base name,
read and parse the optional manifest (defaults on read or parse failure),
then compute size, tree fingerprint and stat mtime, any of whose failures
aborts the load (`none`). -/
def loadDirectoryPack (dirPath : String) (t : DirTree) : Option ResourcePack :=
  let name := filepathBase dirPath
  let meta : String × Int :=
    match t.mcmetaRead with
    | some doc =>
      match parsePackMcmeta doc with
      | some pi => (pi.description, pi.packFormat)
      | none => (defaultDescription name, 22)
    | none => (defaultDescription name, 22)
  match calculateDirectorySize t.walk with
  | none => none
  | some size =>
    match calculateDirectoryHash t.walk with
    | none => none
    | some hash =>
      match t.statMtime with
      | none => none
      | some mtime =>
        some { name := name, path := dirPath, description := meta.1,
               packFormat := meta.2, size := size, hash := hash,
               lastModified := mtime, isDirectory := true }

/-- The first zip entry named `pack.mcmeta`, if any (the loop `break`s at the
first match whether or not its contents can be read). -/
def findMcmetaEntry (entries : List ZipEntry) : Option ZipEntry :=
  match entries with
  | [] => none
  | e :: rest => if e.name = "pack.mcmeta" then some e else findMcmetaEntry rest

/-- `loadZipPack`: stat the archive (failure aborts), derive the name by
stripping `.zip` from the base name, default the metadata, then — when the
archive opens — let a readable, parseable first `pack.mcmeta` entry override
the defaults; finally MD5 the raw archive bytes (failure aborts). -/
def loadZipPack (packPath : String) (z : ZipFile) : Option ResourcePack :=
  if !z.statOk then none
  else
    let name := trimSuffix (filepathBase packPath) ".zip"
    let meta : String × Int :=
      if z.openOk then
        match findMcmetaEntry z.entries with
        | some e =>
          if e.readOk then
            match parsePackMcmeta e.doc with
            | some pi => (pi.description, pi.packFormat)
            | none => (defaultDescription name, 22)
          else (defaultDescription name, 22)
        | none => (defaultDescription name, 22)
      else (defaultDescription name, 22)
    match calculateFileHash z.fileBytes with
    | none => none
    | some hash =>
      some { name := name, path := packPath, description := meta.1,
             packFormat := meta.2, size := z.statSize, hash := hash,
             lastModified := z.statMtime, isDirectory := false }

/-! ## Registry state and the Go map -/

/-- The in-memory index `map[string]*ResourcePack`, as an association list
with unique keys; `mapInsert` models `m[k] = v`. -/
abbrev PackMap := List (String × ResourcePack)

/-- Go map assignment `m[k] = v`: replaces any existing binding of `k`. -/
def mapInsert (m : PackMap) (k : String) (v : ResourcePack) : PackMap :=
  m.filter (fun p => p.1 ≠ k) ++ [(k, v)]

/-- Go map read `m[k]`. -/
def mapLookup (m : PackMap) (k : String) : Option ResourcePack :=
  m.lookup k

/-- The mutable fields of `PacksManager` that scanning touches. -/
structure RegState where
  packs : PackMap
  lastScanTime : Nat
deriving Repr

/-! ## Scanner (`scanPacks`) -/

/-- A directory entry returned by `os.ReadDir`, together with what loading
its path would observe. -/
inductive EntryInfo where
  | dir (t : DirTree)
  | file (z : ZipFile)
deriving Repr

/-- One `os.ReadDir` entry. -/
structure DirEntry where
  name : String
  info : EntryInfo
deriving Repr

/-- Everything one `scanPacks` pass observes about the filesystem. -/
structure ScanEnv where
  rootPath : String
  root : DirTree
  /-- `os.ReadDir(packsDirectory)`: `none` is the scan-level failure. -/
  readDir : Option (List DirEntry)
deriving Repr

/-- The pack a single `os.ReadDir` entry contributes, if any: a subdirectory
is considered only when it holds a top-level `pack.mcmeta` and loads; a file
is considered only when its name ends in `.zip` and loads. -/
def entryLoad (rootPath : String) (e : DirEntry) : Option ResourcePack :=
  let entryPath := filepathJoin rootPath e.name
  match e.info with
  | EntryInfo.dir t =>
    if isResourcePackDirectory t then loadDirectoryPack entryPath t else none
  | EntryInfo.file z =>
    if strEndsWith e.name ".zip" then loadZipPack entryPath z else none

/-- The loop body of `scanPacks` over one `os.ReadDir` entry. -/
def scanStep (rootPath : String) (m : PackMap) (e : DirEntry) : PackMap :=
  match entryLoad rootPath e with
  | some p => mapInsert m p.name p
  | none => m

/-- The index contents after the root-directory check of `scanPacks`
(the fresh map, plus the root itself when it qualifies and loads). -/
def rootScan (env : ScanEnv) : PackMap :=
  if isResourcePackDirectory env.root then
    match loadDirectoryPack env.rootPath env.root with
    | some p => mapInsert [] p.name p
    | none => []
  else []

/-- `scanPacks`, run at time `now` from state `st`: clear the index, add the
root candidate, then — unless `os.ReadDir` fails, which returns an error with
the index left as just cleared-and-root-filled and the scan time not
updated — fold the loop body over the entries and record the scan time.
The `Bool` is the error result. -/
def scanPacks (env : ScanEnv) (now : Nat) (st : RegState) : Bool × RegState :=
  let m1 := rootScan env
  match env.readDir with
  | none => (true, { packs := m1, lastScanTime := st.lastScanTime })
  | some entries =>
    let m2 := entries.foldl (scanStep env.rootPath) m1
    (false, { packs := m2, lastScanTime := now })

/-- The packs `scanPacks` loads (and logs), in loading order: the root
candidate first, then each `os.ReadDir` entry's contribution in enumeration
order — directories and archives interleaved in the one pass the code makes. -/
def loadedPacks (env : ScanEnv) (entries : List DirEntry) : List ResourcePack :=
  (match (if isResourcePackDirectory env.root then
            loadDirectoryPack env.rootPath env.root
          else none) with
   | some p => [p]
   | none => []) ++ entries.filterMap (entryLoad env.rootPath)

/-- Modelled from the spec (claim C5's wording, for comparison with
`loadedPacks`): candidates "loaded in the order: the root directory first,
then all subdirectories, then all archive files, each group in filesystem
enumeration order". -/
def specOrderLoadedPacks (env : ScanEnv) (entries : List DirEntry) :
    List ResourcePack :=
  (match (if isResourcePackDirectory env.root then
            loadDirectoryPack env.rootPath env.root
          else none) with
   | some p => [p]
   | none => []) ++
  (entries.filter (fun e => match e.info with
    | EntryInfo.dir _ => true
    | EntryInfo.file _ => false)).filterMap (entryLoad env.rootPath) ++
  (entries.filter (fun e => match e.info with
    | EntryInfo.dir _ => false
    | EntryInfo.file _ => true)).filterMap (entryLoad env.rootPath)

/-! ## Registry read interface -/

/-- `GetAllPacks` (the values of the map, under the read lock). -/
def GetAllPacks (m : PackMap) : List ResourcePack :=
  m.map (fun p => p.2)

/-- `GetPack`. -/
def GetPack (st : RegState) (name : String) : Option ResourcePack :=
  mapLookup st.packs name

/-- `GetPackHash`. -/
def GetPackHash (st : RegState) (name : String) : String :=
  match GetPack st name with
  | some p => p.hash
  | none => ""

/-! ## ChangeWatcher (`handleFileEvent`) and manual rescan (`RescanPacks`) -/

/-- `handleFileEvent`: discard the event when the time since the last scan is
below the cooldown; otherwise sleep the settle delay and scan (the scan
completes, and records its time, at `scanTime`). -/
def handleFileEvent (cooldown : Nat) (env : ScanEnv)
    (eventTime scanTime : Nat) (st : RegState) : RegState :=
  if eventTime - st.lastScanTime < cooldown then st
  else (scanPacks env scanTime st).2

/-- `RescanPacks`: calls `scanPacks` directly — no cooldown gate. -/
def RescanPacks (env : ScanEnv) (now : Nat) (st : RegState) : Bool × RegState :=
  scanPacks env now st

/-- Sequential processing of change notifications by the single watcher
goroutine: each event is handled when the watcher becomes free, the cooldown
gate is checked then, and a triggered scan completes after the 500ms settle
delay plus the scan duration. Returns the final state, the time the watcher
becomes free, and how many scans ran. -/
def processEvents (cooldown settle scanDur : Nat) (env : ScanEnv)
    (events : List Nat) (busyUntil : Nat) (st : RegState) (scans : Nat) :
    RegState × Nat × Nat :=
  match events with
  | [] => (st, busyUntil, scans)
  | t :: rest =>
    let start := max t busyUntil
    if start - st.lastScanTime < cooldown then
      processEvents cooldown settle scanDur env rest start st scans
    else
      let finish := start + settle + scanDur
      let st' := (scanPacks env finish st).2
      processEvents cooldown settle scanDur env rest finish st' (scans + 1)

/-! ## ArchiveCache (`CreateZipFromDirectory`) -/

/-- The temporary archive path `fmt.Sprintf("%s_%d.zip", packName, unixNow)`
joined to the temp directory. -/
def createZipPath (tempDir packName : String) (unixNow : Nat) : String :=
  tempDir ++ "/" ++ packName ++ "_" ++ natRepr unixNow ++ ".zip"

/-- `CreateZipFromDirectory`: build the temp path from the pack name and the
current unix time, then walk the tree writing every regular file; a walk
error aborts and surfaces (`none`), otherwise the path is returned. -/
def CreateZipFromDirectory (tempDir : String) (walk : Option (List FileRec))
    (packName : String) (unixNow : Nat) : Option String :=
  match walk with
  | none => none
  | some _ => some (createZipPath tempDir packName unixNow)

/-! ## Concurrency model for the RWMutex-protected index

`scanPacks` mutates `pm.packs` in place while holding the write lock
(`pm.mu.Lock()` at entry, released at return): it clears the map and then
performs one insertion per loaded pack. `GetAllPacks` reads the map while
holding the read lock. We model the two goroutines as action sequences over
a shared configuration, with the lock discipline expressed as guards on the
interleaving relation, and prove that a read observes either the full old
index or the full new one. -/

/-- One in-place index mutation performed under the write lock. -/
abbrev Mut := PackMap → PackMap

/-- Apply a mutation sequence in order. -/
def applyMuts (muts : List Mut) (i : PackMap) : PackMap :=
  muts.foldl (fun m f => f m) i

/-- The mutation sequence of one successful `scanPacks` critical section:
clear the map (`pm.packs = make(...)`), then insert each loaded pack. -/
def scanMuts (env : ScanEnv) (entries : List DirEntry) : List Mut :=
  (fun _ => []) ::
    (loadedPacks env entries).map (fun p => fun m => mapInsert m p.name p)

/-- The scanning goroutine: before the write lock, inside the critical
section with the listed mutations still to perform, or after the unlock. -/
inductive WriterSt where
  | idle
  | locked (rem : List Mut)
  | done

/-- The reading goroutine (`GetAllPacks`): before the read lock, holding it,
holding it having copied the map, or after the unlock with its copy. -/
inductive ReaderSt where
  | start
  | rlocked
  | got (v : PackMap)
  | finished (v : PackMap)

/-- Whether the reader holds the read lock. -/
def readerHolds : ReaderSt → Prop
  | ReaderSt.rlocked => True
  | ReaderSt.got _ => True
  | _ => False

/-- Whether the writer holds the write lock. -/
def writerHolds : WriterSt → Prop
  | WriterSt.locked _ => True
  | _ => False

/-- A configuration of the two goroutines and the shared index. -/
structure Conf where
  idx : PackMap
  writer : WriterSt
  reader : ReaderSt

/-- One interleaving step. Lock acquisitions are guarded by the RWMutex
discipline: the write lock excludes a held read lock and vice versa. -/
inductive LockStep (muts : List Mut) : Conf → Conf → Prop where
  | wLock (i r) (h : ¬ readerHolds r) :
      LockStep muts ⟨i, WriterSt.idle, r⟩ ⟨i, WriterSt.locked muts, r⟩
  | wStep (i r) (m : Mut) (rest : List Mut) :
      LockStep muts ⟨i, WriterSt.locked (m :: rest), r⟩
        ⟨m i, WriterSt.locked rest, r⟩
  | wUnlock (i r) :
      LockStep muts ⟨i, WriterSt.locked [], r⟩ ⟨i, WriterSt.done, r⟩
  | rLock (i w) (h : ¬ writerHolds w) :
      LockStep muts ⟨i, w, ReaderSt.start⟩ ⟨i, w, ReaderSt.rlocked⟩
  | rRead (i w) :
      LockStep muts ⟨i, w, ReaderSt.rlocked⟩ ⟨i, w, ReaderSt.got i⟩
  | rUnlock (i w v) :
      LockStep muts ⟨i, w, ReaderSt.got v⟩ ⟨i, w, ReaderSt.finished v⟩

/-- The invariant tying every reachable configuration to the old and new
index: outside the critical section the index is wholly old or wholly new,
inside it the remaining mutations complete it to the new index and the read
lock is free, and any copy the reader has taken is wholly old or wholly new. -/
def LockInv (old : PackMap) (muts : List Mut) (c : Conf) : Prop :=
  (match c.writer with
   | WriterSt.idle => c.idx = old
   | WriterSt.locked rem =>
     applyMuts rem c.idx = applyMuts muts old ∧ ¬ readerHolds c.reader
   | WriterSt.done => c.idx = applyMuts muts old) ∧
  (match c.reader with
   | ReaderSt.got v => v = old ∨ v = applyMuts muts old
   | ReaderSt.finished v => v = old ∨ v = applyMuts muts old
   | _ => True)

/-! ## Helper lemmas -/

/-- Sorting is invariant under permutation of the input. -/
theorem mergeSort_eq_of_perm {l₁ l₂ : List String} (h : l₁.Perm l₂) :
    l₁.mergeSort = l₂.mergeSort :=
  List.eq_of_perm_of_sorted
    (((List.mergeSort_perm l₁ _).trans h).trans (List.mergeSort_perm l₂ _).symm)
    (List.sorted_mergeSort' _) (List.sorted_mergeSort' _)

theorem lookup_mapInsert_self (m : PackMap) (k : String) (v : ResourcePack) :
    mapLookup (mapInsert m k v) k = some v := by
  induction m with
  | nil => simp [mapLookup, mapInsert, List.lookup]
  | cons p rest ih =>
    by_cases hk : p.1 = k
    · simpa [mapLookup, mapInsert, List.filter, hk] using ih
    · have hb : (k == p.1) = false := by
        simp [beq_iff_eq]; exact fun e => hk e.symm
      simpa [mapLookup, mapInsert, List.filter, hk, List.lookup, hb] using ih

theorem lookup_mapInsert_ne (m : PackMap) (k : String) (v : ResourcePack)
    (k' : String) (h : k' ≠ k) :
    mapLookup (mapInsert m k v) k' = mapLookup m k' := by
  have hb : (k' == k) = false := by simp [beq_iff_eq, h]
  induction m with
  | nil => simp [mapLookup, mapInsert, List.lookup, hb]
  | cons p rest ih =>
    by_cases hk : p.1 = k
    · have hb' : (k' == p.1) = false := by rw [hk]; exact hb
      simpa [mapLookup, mapInsert, List.filter, hk, List.lookup, hb', hb] using ih
    · by_cases hkp : k' = p.1
      · simp [mapLookup, mapInsert, List.filter, hk, List.lookup, hkp]
      · have hb' : (k' == p.1) = false := by simp [beq_iff_eq, hkp]
        simpa [mapLookup, mapInsert, List.filter, hk, List.lookup, hb'] using ih

theorem foldl_scanStep_eq (rootPath : String) (entries : List DirEntry)
    (m : PackMap) :
    entries.foldl (scanStep rootPath) m
      = (entries.filterMap (entryLoad rootPath)).foldl
          (fun m p => mapInsert m p.name p) m := by
  induction entries generalizing m with
  | nil => rfl
  | cons e rest ih =>
    simp only [List.foldl_cons, List.filterMap_cons, scanStep]
    cases h : entryLoad rootPath e with
    | none => simpa [h] using ih m
    | some p => simpa [h] using ih (mapInsert m p.name p)

theorem scanPacks_packs_eq (env : ScanEnv) (now : Nat) (st : RegState)
    (entries : List DirEntry) (h : env.readDir = some entries) :
    (scanPacks env now st).2.packs
      = (loadedPacks env entries).foldl (fun m p => mapInsert m p.name p) [] := by
  simp only [scanPacks, h]
  rw [foldl_scanStep_eq]
  unfold loadedPacks rootScan
  by_cases hr : isResourcePackDirectory env.root
  · simp only [hr, if_true]
    cases hl : loadDirectoryPack env.rootPath env.root with
    | some p => simp [List.foldl_append]
    | none => simp [List.foldl_append]
  · simp only [hr, if_false, Bool.false_eq_true]
    simp [List.foldl_append]

theorem lookup_foldl_insert (ps : List ResourcePack) (m : PackMap)
    (nm : String) :
    mapLookup (ps.foldl (fun m p => mapInsert m p.name p) m) nm
      = (ps.reverse.find? (fun p => p.name == nm)).elim (mapLookup m nm) some := by
  induction ps generalizing m with
  | nil => rfl
  | cons p rest ih =>
    simp only [List.foldl_cons, List.reverse_cons, List.find?_append, ih]
    cases hfind : rest.reverse.find? (fun p => p.name == nm) with
    | some q => rfl
    | none =>
      simp only [Option.none_or, Option.elim]
      cases hname : (p.name == nm) with
      | true =>
        have : nm = p.name := (beq_iff_eq.mp hname).symm
        simp [List.find?, hname, this, lookup_mapInsert_self]
      | false =>
        have : nm ≠ p.name := fun e => by simp [e] at hname
        simp [List.find?, hname, lookup_mapInsert_ne _ _ _ _ this]

/-- Decimal re-reading of a digit string, used to invert `natRepr`. -/
def parseNatChars (l : List Char) : Nat :=
  l.foldl (fun a c => a * 10 + (c.toNat - 48)) 0

theorem digitChar_val {d : Nat} (h : d < 10) :
    (Nat.digitChar d).toNat - 48 = d := by
  interval_cases d <;> rfl

/-- The value accumulated by appending the decimal digits of `n` after an
accumulator already holding `a`. -/
def pushDigits : Nat → Nat → Nat → Nat
  | 0, _, a => a
  | fuel + 1, n, a =>
    if n < 10 then a * 10 + n
    else (pushDigits fuel (n / 10) a) * 10 + n % 10

theorem foldl_natDigitsCore (fuel : Nat) :
    ∀ (n : Nat) (acc : List Char) (a : Nat),
      List.foldl (fun a c => a * 10 + (c.toNat - 48)) a (natDigitsCore fuel n acc)
        = List.foldl (fun a c => a * 10 + (c.toNat - 48)) (pushDigits fuel n a) acc := by
  induction fuel with
  | zero => intro n acc a; rfl
  | succ fuel ih =>
    intro n acc a
    by_cases h : n < 10
    · simp [natDigitsCore, pushDigits, h, digitChar_val h]
    · have h10 : n % 10 < 10 := Nat.mod_lt _ (by omega)
      simp [natDigitsCore, pushDigits, h, ih, digitChar_val h10]

theorem pushDigits_zero (fuel : Nat) :
    ∀ n : Nat, n < fuel → pushDigits fuel n 0 = n := by
  induction fuel with
  | zero => intro n h; omega
  | succ fuel ih =>
    intro n h
    by_cases hn : n < 10
    · simp [pushDigits, hn]
    · have hdiv : n / 10 < n := Nat.div_lt_self (by omega) (by omega)
      have : pushDigits fuel (n / 10) 0 = n / 10 := ih _ (by omega)
      simp only [pushDigits, hn, if_false]
      omega

theorem parseNatChars_natRepr (n : Nat) :
    parseNatChars (natRepr n).data = n := by
  have : parseNatChars (natDigitsCore (n + 1) n []) = n := by
    unfold parseNatChars
    rw [foldl_natDigitsCore]
    simpa using pushDigits_zero (n + 1) n (by omega)
  simpa [natRepr] using this

theorem natRepr_injective {m n : Nat} (h : natRepr m = natRepr n) : m = n := by
  have := congrArg (fun s => parseNatChars s.data) h
  simpa [parseNatChars_natRepr] using this

theorem createZipPath_injective_time (tempDir packName : String)
    {t₁ t₂ : Nat} (h : createZipPath tempDir packName t₁ = createZipPath tempDir packName t₂) :
    t₁ = t₂ := by
  apply natRepr_injective
  have hdata := congrArg String.data h
  simp only [createZipPath, String.data_append, List.append_assoc] at hdata
  have h1 := List.append_cancel_left hdata
  have h2 := List.append_cancel_left h1
  have h3 := List.append_cancel_left h2
  have h3' := List.append_cancel_left h3
  have h4 := List.append_cancel_right h3'
  exact congrArg String.mk h4

theorem lockStep_preserves {old : PackMap} {muts : List Mut} {c c' : Conf}
    (hs : LockStep muts c c') (hinv : LockInv old muts c) :
    LockInv old muts c' := by
  cases hs with
  | wLock i r h =>
    dsimp only [LockInv] at hinv ⊢
    obtain ⟨hw, hr⟩ := hinv
    exact ⟨⟨by rw [hw], h⟩, hr⟩
  | wStep i r m rest =>
    dsimp only [LockInv] at hinv ⊢
    obtain ⟨⟨happ, hfree⟩, hr⟩ := hinv
    refine ⟨⟨?_, hfree⟩, ?_⟩
    · simpa [applyMuts] using happ
    · cases r with
      | start => trivial
      | rlocked => trivial
      | got v => exact absurd trivial hfree
      | finished v => exact hr
  | wUnlock i r =>
    dsimp only [LockInv] at hinv ⊢
    obtain ⟨⟨happ, _⟩, hr⟩ := hinv
    exact ⟨by simpa [applyMuts] using happ, hr⟩
  | rLock i w h =>
    dsimp only [LockInv] at hinv ⊢
    obtain ⟨hw, _⟩ := hinv
    refine ⟨?_, trivial⟩
    cases w with
    | idle => exact hw
    | locked rem => exact absurd trivial h
    | done => exact hw
  | rRead i w =>
    dsimp only [LockInv] at hinv ⊢
    obtain ⟨hw, _⟩ := hinv
    cases w with
    | idle => exact ⟨hw, Or.inl hw⟩
    | locked rem => exact absurd trivial hw.2
    | done => exact ⟨hw, Or.inr hw⟩
  | rUnlock i w v =>
    dsimp only [LockInv] at hinv ⊢
    obtain ⟨hw, hr⟩ := hinv
    refine ⟨?_, hr⟩
    cases w with
    | idle => exact hw
    | locked rem => exact absurd trivial hw.2
    | done => exact hw

theorem lockInv_reachable {old : PackMap} {muts : List Mut} {c : Conf}
    (h : Relation.ReflTransGen (LockStep muts)
      ⟨old, WriterSt.idle, ReaderSt.start⟩ c) :
    LockInv old muts c := by
  induction h with
  | refl => exact ⟨rfl, trivial⟩
  | tail _ hstep ih => exact lockStep_preserves hstep ih

theorem applyMuts_scanMuts (env : ScanEnv) (entries : List DirEntry)
    (i : PackMap) :
    applyMuts (scanMuts env entries) i
      = (loadedPacks env entries).foldl (fun m p => mapInsert m p.name p) [] := by
  simp [applyMuts, scanMuts, List.foldl_map]

/-! ## Claim C1 (scan-level failure) -/

/-- A concrete prior pack for exercising scan failure. -/
def packC1 : ResourcePack :=
  { name := "old", path := "/packs/old.zip", description := "Old", packFormat := 7,
    size := 3, hash := "0123", lastModified := 1, isDirectory := false }

/-- A scan environment whose root directory read (`os.ReadDir`) fails. -/
def envC1 : ScanEnv :=
  { rootPath := "/packs",
    root := { hasMcmeta := false, mcmetaRead := none, walk := none, statMtime := none },
    readDir := none }

/-- A prior registry state holding one indexed pack. -/
def stC1 : RegState := { packs := [("old", packC1)], lastScanTime := 50 }

/-- Claim C1 is false of the code: when `os.ReadDir` on the root fails, the
scan returns an error, but the index has already been cleared in place — from
a nonempty prior index the registry is left with an empty index, not the
previous one. -/
theorem c1_counterexample :
    (scanPacks envC1 100 stC1).1 = true ∧
    (scanPacks envC1 100 stC1).2.packs = [] ∧
    stC1.packs ≠ [] :=
  ⟨rfl, rfl, by decide⟩

/-- Claim C1, amended: a scan whose root-directory read fails returns an
error and leaves `lastScanTime` unchanged, but does not retain the previous
index — the published index is exactly the freshly cleared map plus whatever
the root-directory candidate contributed (independent of the prior index). -/
theorem scan_failure_discards_previous_index (env : ScanEnv) (now : Nat)
    (st : RegState) (h : env.readDir = none) :
    scanPacks env now st
      = (true, { packs := rootScan env, lastScanTime := st.lastScanTime }) := by
  simp [scanPacks, h]

/-- Witness for the amended C1 theorem at a concrete failing environment. -/
theorem scan_failure_discards_previous_index_witness :
    scanPacks envC1 100 stC1
      = (true, { packs := rootScan envC1, lastScanTime := stC1.lastScanTime }) :=
  scan_failure_discards_previous_index envC1 100 stC1 rfl

/-! ## Claim C2 (fingerprint order-invariance) -/

/-- Claim C2: the directory-tree fingerprint is invariant to the order in
which the walk yields the files — for any permutation of the walked file
list, `calculateDirectoryHash` returns the same digest. -/
theorem fingerprint_order_invariance (w₁ w₂ : List FileRec) (h : w₁.Perm w₂) :
    calculateDirectoryHash (some w₁) = calculateDirectoryHash (some w₂) := by
  simp only [calculateDirectoryHash]
  rw [mergeSort_eq_of_perm (h.map _)]

def fileC2a : FileRec := ⟨"a.png", 1, 2, "x"⟩

def fileC2b : FileRec := ⟨"b/c.png", 3, 4, "y"⟩

/-- Witness for C2 at a concrete two-file walk and its transposition. -/
theorem fingerprint_order_invariance_witness :
    calculateDirectoryHash (some [fileC2a, fileC2b])
      = calculateDirectoryHash (some [fileC2b, fileC2a]) :=
  fingerprint_order_invariance _ _ (List.Perm.swap fileC2b fileC2a [])

/-! ## Claim C3 (missing manifest: directory skipped, archive defaulted) -/

theorem findMcmetaEntry_eq_none {entries : List ZipEntry}
    (h : ∀ e ∈ entries, e.name ≠ "pack.mcmeta") :
    findMcmetaEntry entries = none := by
  induction entries with
  | nil => rfl
  | cons e rest ih =>
    have he : e.name ≠ "pack.mcmeta" := h e (List.mem_cons_self e rest)
    simp only [findMcmetaEntry, he, if_false]
    exact ih fun e' h' => h e' (List.mem_cons_of_mem e h')

/-- Claim C3: a candidate directory with no top-level `pack.mcmeta` is
skipped entirely — it contributes nothing to the index, whether it is a
`ReadDir` entry or the root directory itself — while a `.zip` archive with
no `pack.mcmeta` entry is loaded (hence indexed) with the synthesized
description `"Resource Pack: <name>"` and format version `22`. -/
theorem missing_manifest_defaults :
    (∀ (rootPath : String) (m : PackMap) (e : DirEntry) (t : DirTree),
        e.info = EntryInfo.dir t → t.hasMcmeta = false →
        scanStep rootPath m e = m) ∧
    (∀ env : ScanEnv, env.root.hasMcmeta = false → rootScan env = []) ∧
    (∀ (packPath : String) (z : ZipFile) (bytes : String),
        z.statOk = true →
        (∀ e ∈ z.entries, e.name ≠ "pack.mcmeta") →
        z.fileBytes = some bytes →
        loadZipPack packPath z = some
          { name := trimSuffix (filepathBase packPath) ".zip",
            path := packPath,
            description := defaultDescription (trimSuffix (filepathBase packPath) ".zip"),
            packFormat := 22,
            size := z.statSize,
            hash := md5hex bytes,
            lastModified := z.statMtime,
            isDirectory := false }) := by
  refine ⟨?_, ?_, ?_⟩
  · intro rootPath m e t hinfo hmc
    simp [scanStep, entryLoad, hinfo, isResourcePackDirectory, hmc]
  · intro env hmc
    simp [rootScan, isResourcePackDirectory, hmc]
  · intro packPath z bytes hstat hno hbytes
    have hfind := findMcmetaEntry_eq_none hno
    cases hopen : z.openOk <;>
      simp [loadZipPack, hstat, hopen, hfind, calculateFileHash, hbytes,
        defaultDescription]

/-- A concrete archive with no `pack.mcmeta` entry, and a concrete
manifest-less directory entry. -/
def zipC3 : ZipFile :=
  { statOk := true, statSize := 9, statMtime := 4, openOk := true,
    entries := [], fileBytes := some "PK" }

def dirEntryC3 : DirEntry :=
  { name := "plain",
    info := EntryInfo.dir
      { hasMcmeta := false, mcmetaRead := none, walk := some [], statMtime := some 2 } }

/-- Witness for C3: the manifest-less directory entry contributes nothing,
and the manifest-less archive loads with the defaulted metadata. -/
theorem missing_manifest_defaults_witness :
    scanStep "/packs" [] dirEntryC3 = [] ∧
    loadZipPack "/packs/a.zip" zipC3 = some
      { name := trimSuffix (filepathBase "/packs/a.zip") ".zip",
        path := "/packs/a.zip",
        description := defaultDescription (trimSuffix (filepathBase "/packs/a.zip") ".zip"),
        packFormat := 22,
        size := zipC3.statSize,
        hash := md5hex "PK",
        lastModified := zipC3.statMtime,
        isDirectory := false } :=
  ⟨missing_manifest_defaults.1 "/packs" [] dirEntryC3 _ rfl rfl,
   missing_manifest_defaults.2.2 "/packs/a.zip" zipC3 "PK" rfl
     (by intro e he; simp [zipC3] at he) rfl⟩

/-! ## Claim C4 (temporary archive path collision) -/

def walkC4a : List FileRec := [⟨"assets/min.png", 10, 3, "aaa"⟩]

def walkC4b : List FileRec := [⟨"assets/min.png", 10, 3, "bbb"⟩]

/-- Claim C4 is false of the code: the temporary path uses the unix time in
seconds, so two distinct calls (here: over trees with different contents)
within the same second for the same pack name produce the same path. -/
theorem c4_counterexample :
    walkC4a ≠ walkC4b ∧
    CreateZipFromDirectory "/tmp/resourcepack_server" (some walkC4a) "bar" 1700000000
      = some "/tmp/resourcepack_server/bar_1700000000.zip" ∧
    CreateZipFromDirectory "/tmp/resourcepack_server" (some walkC4b) "bar" 1700000000
      = some "/tmp/resourcepack_server/bar_1700000000.zip" :=
  ⟨by decide, by decide, by decide⟩

/-- Claim C4, amended: each successful call returns a path of the form
`<tempDir>/<packName>_<unixTimestamp>.zip`, and two calls for the same pack
name yield distinct paths whenever their unix timestamps differ (same-second
calls collide, as the counterexample shows). -/
theorem materialize_distinct_iff_distinct_times (tempDir packName : String)
    (files₁ files₂ : List FileRec) (t₁ t₂ : Nat) (h : t₁ ≠ t₂) :
    CreateZipFromDirectory tempDir (some files₁) packName t₁
        = some (createZipPath tempDir packName t₁) ∧
    CreateZipFromDirectory tempDir (some files₂) packName t₂
        = some (createZipPath tempDir packName t₂) ∧
    createZipPath tempDir packName t₁ ≠ createZipPath tempDir packName t₂ :=
  ⟨rfl, rfl, fun hEq => h (createZipPath_injective_time tempDir packName hEq)⟩

/-- Witness for the amended C4 theorem one second apart. -/
theorem materialize_distinct_iff_distinct_times_witness :
    CreateZipFromDirectory "/tmp/rps" (some walkC4a) "bar" 1700000000
        = some (createZipPath "/tmp/rps" "bar" 1700000000) ∧
    CreateZipFromDirectory "/tmp/rps" (some walkC4b) "bar" 1700000001
        = some (createZipPath "/tmp/rps" "bar" 1700000001) ∧
    createZipPath "/tmp/rps" "bar" 1700000000 ≠ createZipPath "/tmp/rps" "bar" 1700000001 :=
  materialize_distinct_iff_distinct_times "/tmp/rps" "bar" walkC4a walkC4b
    1700000000 1700000001 (by decide)

/-! ## Claim C5 (scan order and last-scanned-wins) -/

/-- An archive entry and a directory entry whose enumeration order
(sorted, as `os.ReadDir` returns them) puts the archive first. -/
def zipC5 : ZipFile :=
  { statOk := true, statSize := 5, statMtime := 3, openOk := true,
    entries := [], fileBytes := some "za" }

def treeC5 : DirTree :=
  { hasMcmeta := true, mcmetaRead := none, walk := some [], statMtime := some 6 }

def entriesC5 : List DirEntry :=
  [{ name := "a.zip", info := EntryInfo.file zipC5 },
   { name := "b", info := EntryInfo.dir treeC5 }]

def envC5 : ScanEnv :=
  { rootPath := "/packs",
    root := { hasMcmeta := false, mcmetaRead := none, walk := none, statMtime := none },
    readDir := some entriesC5 }

/-- Claim C5 is false of the code: the scan loads the `os.ReadDir` entries in
one pass, directories and archives interleaved in enumeration order, not "all
subdirectories, then all archive files". On the (sorted) enumeration
`[a.zip, b/]` the code loads the archive `a` before the directory `b`,
whereas the claimed order loads `b` before `a`. -/
theorem c5_counterexample :
    entriesC5.map (fun e => e.name) = ["a.zip", "b"] ∧
    (loadedPacks envC5 entriesC5).map (fun p => p.name) = ["a", "b"] ∧
    (specOrderLoadedPacks envC5 entriesC5).map (fun p => p.name) = ["b", "a"] :=
  ⟨by decide, by decide, by decide⟩

/-- Claim C5, amended: the candidates are loaded in the order the code
processes them — the root-directory candidate first, then each `os.ReadDir`
entry's candidate in filesystem enumeration order with directories and
archives interleaved in a single pass — and when several loaded candidates
derive the same name, the index maps that name to the last-loaded one. -/
theorem scan_index_last_loaded_wins (env : ScanEnv) (entries : List DirEntry)
    (now : Nat) (st : RegState) (nm : String)
    (h : env.readDir = some entries) :
    mapLookup (scanPacks env now st).2.packs nm
      = (loadedPacks env entries).reverse.find? (fun p => p.name == nm) := by
  rw [scanPacks_packs_eq env now st entries h, lookup_foldl_insert]
  cases hf : (loadedPacks env entries).reverse.find? (fun p => p.name == nm) <;> rfl

/-- Witness for the amended C5 theorem: on the concrete environment the
index entry for `a` is the last (here: only) loaded pack named `a`. -/
theorem scan_index_last_loaded_wins_witness :
    mapLookup (scanPacks envC5 9 { packs := [], lastScanTime := 0 }).2.packs "a"
      = (loadedPacks envC5 entriesC5).reverse.find? (fun p => p.name == "a") :=
  scan_index_last_loaded_wins envC5 entriesC5 9
    { packs := [], lastScanTime := 0 } "a" rfl

/-! ## Claim C6 (cooldown suppression) -/

/-- Claim C6: a change notification arriving while the time since the last
scan is below the cooldown is discarded — no scan runs and the registry
state is unchanged — and, with a 2s cooldown, two notifications 500ms apart
processed sequentially by the single watcher task trigger exactly one scan
(for any scan duration). -/
theorem cooldown_suppresses_events :
    (∀ (cooldown : Nat) (env : ScanEnv) (eventTime scanTime : Nat) (st : RegState),
        eventTime - st.lastScanTime < cooldown →
        handleFileEvent cooldown env eventTime scanTime st = st) ∧
    (∀ (env : ScanEnv) (entries : List DirEntry) (scanDur t : Nat) (st : RegState),
        env.readDir = some entries →
        st.lastScanTime + 2000 ≤ t →
        (processEvents 2000 500 scanDur env [t, t + 500] 0 st 0).2.2 = 1) := by
  constructor
  · intro cooldown env eventTime scanTime st h
    simp [handleFileEvent, h]
  · intro env entries scanDur t st hsucc hgap
    have e1 : ¬ (max t 0 - st.lastScanTime < 2000) := by
      rw [max_eq_left (Nat.zero_le t)]; omega
    have e3 : (scanPacks env (max t 0 + 500 + scanDur) st).2.lastScanTime
        = max t 0 + 500 + scanDur := by
      simp [scanPacks, hsucc]
    have e2 : max (t + 500) (max t 0 + 500 + scanDur) = max t 0 + 500 + scanDur := by
      rw [max_eq_left (Nat.zero_le t)]
      exact max_eq_right (by omega)
    simp only [processEvents, e1, if_false, e3, e2]
    simp

/-- A scan environment with an empty, readable root for exercising the
watcher. -/
def envC6 : ScanEnv :=
  { rootPath := "/packs",
    root := { hasMcmeta := false, mcmetaRead := none, walk := none, statMtime := none },
    readDir := some [] }

/-- Witness for C6: a notification 100ms after a scan with a 2s cooldown is
discarded, and the two-notification scenario runs exactly one scan. -/
theorem cooldown_suppresses_events_witness :
    handleFileEvent 2000 envC6 100 600 { packs := [], lastScanTime := 0 }
      = { packs := [], lastScanTime := 0 } ∧
    (processEvents 2000 500 300 envC6 [2000, 2000 + 500] 0
      { packs := [], lastScanTime := 0 } 0).2.2 = 1 :=
  ⟨cooldown_suppresses_events.1 2000 envC6 100 600 _ (by decide),
   cooldown_suppresses_events.2 envC6 [] 300 2000 _ rfl (by decide)⟩

/-! ## Claim C7 (manual rescan bypasses the cooldown) -/

/-- Claim C7: `RescanPacks` invokes the scan without consulting the cooldown
gate — even while a change notification at the same moment would be
discarded, the manual rescan runs `scanPacks` and (on success) records the
new scan time. -/
theorem manual_rescan_bypasses_cooldown (cooldown : Nat) (env : ScanEnv)
    (entries : List DirEntry) (now : Nat) (st : RegState)
    (hcool : now - st.lastScanTime < cooldown)
    (hsucc : env.readDir = some entries) :
    RescanPacks env now st = scanPacks env now st ∧
    (RescanPacks env now st).2.lastScanTime = now ∧
    handleFileEvent cooldown env now now st = st := by
  refine ⟨rfl, ?_, ?_⟩
  · simp [RescanPacks, scanPacks, hsucc]
  · simp [handleFileEvent, hcool]

/-- Witness for C7, 10ms after the previous scan. -/
theorem manual_rescan_bypasses_cooldown_witness :
    RescanPacks envC6 10 { packs := [], lastScanTime := 0 }
        = scanPacks envC6 10 { packs := [], lastScanTime := 0 } ∧
    (RescanPacks envC6 10 { packs := [], lastScanTime := 0 }).2.lastScanTime = 10 ∧
    handleFileEvent 2000 envC6 10 10 { packs := [], lastScanTime := 0 }
        = { packs := [], lastScanTime := 0 } :=
  manual_rescan_bypasses_cooldown 2000 envC6 [] 10 _ (by decide) rfl

/-! ## Claim C8 (fingerprint depends only on metadata) -/

/-- Claim C8: the tree fingerprint reads only the metadata tuples
`(relativePath, modTimeUnix, sizeBytes)` of the walked files — two walks
whose metadata tuples agree (up to order) yield the same digest whatever the
file contents are. -/
theorem fingerprint_ignores_contents (w₁ w₂ : List FileRec)
    (h : (w₁.map fileMeta).Perm (w₂.map fileMeta)) :
    calculateDirectoryHash (some w₁) = calculateDirectoryHash (some w₂) := by
  simp only [calculateDirectoryHash]
  have hp : (w₁.map fun f => metaLine (fileMeta f)).Perm
      (w₂.map fun f => metaLine (fileMeta f)) := by
    simpa [List.map_map, Function.comp] using h.map metaLine
  rw [mergeSort_eq_of_perm hp]

def fileC8a : FileRec := ⟨"pack.png", 5, 6, "AAA"⟩

def fileC8b : FileRec := ⟨"pack.png", 5, 6, "BBB"⟩

/-- Witness for C8: one-file walks with equal metadata but different
contents fingerprint identically. -/
theorem fingerprint_ignores_contents_witness :
    calculateDirectoryHash (some [fileC8a])
      = calculateDirectoryHash (some [fileC8b]) :=
  fingerprint_ignores_contents [fileC8a] [fileC8b] (by decide)

/-! ## Claim C9 (atomic index replacement) -/

/-- Claim C9: a reader that completes `GetAllPacks` concurrently with a
scan's critical section observes either the complete old index or the
complete new index — never a mixture — for every interleaving allowed by the
RWMutex discipline. -/
theorem atomic_index_replacement (env : ScanEnv) (entries : List DirEntry)
    (now t₀ : Nat) (old v : PackMap) (c : Conf)
    (hsucc : env.readDir = some entries)
    (hreach : Relation.ReflTransGen (LockStep (scanMuts env entries))
      ⟨old, WriterSt.idle, ReaderSt.start⟩ c)
    (hv : c.reader = ReaderSt.got v ∨ c.reader = ReaderSt.finished v) :
    GetAllPacks v = GetAllPacks old ∨
      GetAllPacks v
        = GetAllPacks (scanPacks env now { packs := old, lastScanTime := t₀ }).2.packs := by
  have hinv := lockInv_reachable hreach
  have hnew : applyMuts (scanMuts env entries) old
      = (scanPacks env now { packs := old, lastScanTime := t₀ }).2.packs := by
    rw [applyMuts_scanMuts,
      scanPacks_packs_eq env now { packs := old, lastScanTime := t₀ } entries hsucc]
  dsimp only [LockInv] at hinv
  obtain ⟨_, hr⟩ := hinv
  rcases hv with hc | hc <;> rw [hc] at hr <;> dsimp only at hr <;>
    rcases hr with h | h
  · exact Or.inl (congrArg GetAllPacks h)
  · exact Or.inr (by rw [h, hnew])
  · exact Or.inl (congrArg GetAllPacks h)
  · exact Or.inr (by rw [h, hnew])

def envC9 : ScanEnv :=
  { rootPath := "/packs",
    root := { hasMcmeta := false, mcmetaRead := none, walk := none, statMtime := none },
    readDir := some [] }

def packC9 : ResourcePack :=
  { name := "p", path := "/packs/p.zip", description := "P", packFormat := 8,
    size := 2, hash := "ab", lastModified := 9, isDirectory := false }

def oldC9 : PackMap := [("p", packC9)]

/-- Witness for C9: the explicit interleaving in which the reader locks,
reads and unlocks before the writer starts observes the complete old index. -/
theorem atomic_index_replacement_witness :
    GetAllPacks oldC9 = GetAllPacks oldC9 ∨
      GetAllPacks oldC9
        = GetAllPacks (scanPacks envC9 3 { packs := oldC9, lastScanTime := 0 }).2.packs :=
  atomic_index_replacement envC9 [] 3 0 oldC9 oldC9
    ⟨oldC9, WriterSt.idle, ReaderSt.finished oldC9⟩ rfl
    (Relation.ReflTransGen.tail
      (Relation.ReflTransGen.tail
        (Relation.ReflTransGen.tail Relation.ReflTransGen.refl
          (LockStep.rLock oldC9 WriterSt.idle (fun h => h)))
        (LockStep.rRead oldC9 WriterSt.idle))
      (LockStep.rUnlock oldC9 WriterSt.idle oldC9))
    (Or.inr rfl)

/-! ## Claim C10 (partial manifest fields default to "" and 22) -/

/-- Claim C10: when the manifest decodes to an object with a `pack` object
field, parsing succeeds; the description defaults to the empty string (not
the synthesized `"Resource Pack: <name>"`, which is never empty) when the
`pack` object has no string `description`, the format defaults to `22` when
it has no numeric `pack_format`, and a loaded directory pack carries the
parsed values verbatim. -/
theorem manifest_partial_fields_default (dirPath : String) (t : DirTree)
    (data packObj : List (String × JValue)) (files : List FileRec) (mt : Nat)
    (hread : t.mcmetaRead = some (some data))
    (hpack : jField? data "pack" = some (JValue.jobj packObj))
    (hwalk : t.walk = some files) (hstat : t.statMtime = some mt) :
    ∃ pi : PackInfo, parsePackMcmeta (some data) = some pi ∧
      (isStrVal (jField? packObj "description") = false → pi.description = "") ∧
      (isNumVal (jField? packObj "pack_format") = false → pi.packFormat = 22) ∧
      defaultDescription (filepathBase dirPath) ≠ "" ∧
      ∃ p : ResourcePack, loadDirectoryPack dirPath t = some p ∧
        p.description = pi.description ∧ p.packFormat = pi.packFormat := by
  refine ⟨⟨(match jField? packObj "description" with
            | some (JValue.jstr s) => s
            | _ => ""),
           (match jField? packObj "pack_format" with
            | some (JValue.jnum n) => n
            | _ => 22)⟩, ?_, ?_, ?_, ?_, ?_⟩
  · simp only [parsePackMcmeta, hpack]
  · intro hd
    cases hv : jField? packObj "description" with
    | none => simp [hv]
    | some v =>
      cases v with
      | jstr s => simp [isStrVal, hv] at hd
      | jnull => simp [hv]
      | jbool b => simp [hv]
      | jnum n => simp [hv]
      | jarr xs => simp [hv]
      | jobj fields => simp [hv]
  · intro hf
    cases hv : jField? packObj "pack_format" with
    | none => simp [hv]
    | some v =>
      cases v with
      | jnum n => simp [isNumVal, hv] at hf
      | jnull => simp [hv]
      | jbool b => simp [hv]
      | jstr s => simp [hv]
      | jarr xs => simp [hv]
      | jobj fields => simp [hv]
  · intro hEq
    have hlen := congrArg String.length hEq
    rw [defaultDescription, String.length_append] at hlen
    have h15 : ("Resource Pack: " : String).length = 15 := rfl
    rw [h15] at hlen
    simp at hlen
  · have hload : loadDirectoryPack dirPath t = some
        { name := filepathBase dirPath, path := dirPath,
          description := (match jField? packObj "description" with
            | some (JValue.jstr s) => s
            | _ => ""),
          packFormat := (match jField? packObj "pack_format" with
            | some (JValue.jnum n) => n
            | _ => 22),
          size := files.foldl (fun acc f => acc + f.sizeBytes) 0,
          hash := md5hex (String.intercalate "\n"
            ((files.map (fun f => metaLine (fileMeta f))).mergeSort)),
          lastModified := mt, isDirectory := true } := by
      simp only [loadDirectoryPack, hread, parsePackMcmeta, hpack, hwalk, hstat,
        calculateDirectorySize, calculateDirectoryHash]
    exact ⟨_, hload, rfl, rfl⟩

def dataC10 : List (String × JValue) :=
  [("pack", JValue.jobj [("other", JValue.jnum 3)])]

def treeC10 : DirTree :=
  { hasMcmeta := true, mcmetaRead := some (some dataC10),
    walk := some [], statMtime := some 7 }

/-- Witness for C10 on a manifest whose `pack` object has neither a
`description` nor a `pack_format`. -/
theorem manifest_partial_fields_default_witness :
    ∃ pi : PackInfo, parsePackMcmeta (some dataC10) = some pi ∧
      (isStrVal (jField? [("other", JValue.jnum 3)] "description") = false →
        pi.description = "") ∧
      (isNumVal (jField? [("other", JValue.jnum 3)] "pack_format") = false →
        pi.packFormat = 22) ∧
      defaultDescription (filepathBase "/packs/b") ≠ "" ∧
      ∃ p : ResourcePack, loadDirectoryPack "/packs/b" treeC10 = some p ∧
        p.description = pi.description ∧ p.packFormat = pi.packFormat :=
  manifest_partial_fields_default "/packs/b" treeC10 dataC10
    [("other", JValue.jnum 3)] [] 7 rfl rfl rfl rfl
